import Mathlib

/-!
# Verification of the poker bankroll tracker (`bankrollManagement.py`)

Shallow embedding of the core of `src/bankrollManagement.py`:

* the reconciliation engine `process_room_data` (lines 205-230), which turns a
  sparse per-room session table into a dense daily series with a forward-filled
  bankroll and a derived `pure_profit` column;
* the ledger mutation protocol: `setup_rooms` (initial room + initial session
  insert, lines 94-107), `add_session` (upsert-by-date, lines 147-192) and
  `delete_room` (audited cascade delete, lines 611-648);
* the aggregation paths of `room_stats`/`global_stats`: period resampling
  (`resample('W-MON' | 'ME' | 'YE')` followed by `strftime` labelling) and the
  cross-room merge of `global_stats` (lines 418-476).

Conventions of the embedding:

* Calendar dates are modelled as natural numbers: days since 1970-01-01 (the
  day ordinal of a pandas `Timestamp` at midnight).  1970-01-01 is a Thursday.
* SQLite `REAL` values (cashflow, bankroll) and the `tournaments` column (an
  integer that pandas promotes to float once NaN-filled) are modelled as `ℚ`;
  every identity proved here is exact, matching the spec's "full precision
  internally, rounding only at presentation time".
* A pandas `NaN` produced by `reindex` is modelled by `Option`: a grid day
  either has a session row or it does not.
* The `IndexError` raised by `df['bankroll'].iloc[0]` on an empty frame is
  modelled by returning `none`.
-/

/-- One row of the `sessions` table restricted to the columns that
`process_room_data` receives (`date, bankroll, cashflow, tournaments`). -/
structure SessionRow where
  date : ℕ
  tournaments : ℚ
  cashflow : ℚ
  bankroll : ℚ
deriving DecidableEq

/-- One row of the dense daily output frame of `process_room_data`. -/
structure ReconDay where
  date : ℕ
  bankroll : ℚ
  cashflow : ℚ
  tournaments : ℚ
  pure_profit : ℚ
deriving DecidableEq

/-- The left join performed by `sessions_df.set_index('date').reindex(grid)`:
the (at most one, by the `UNIQUE(room_id, date)` constraint) session row for a
given grid day. -/
def findObs (obs : List SessionRow) (d : ℕ) : Option SessionRow :=
  obs.find? (fun o => o.date = d)

/-- `pd.date_range(start=init_date, end=end_date, freq='D')` on day ordinals:
the inclusive daily grid.  Empty when `end_date < init_date`. -/
def grid (init_date end_date : ℕ) : List ℕ :=
  (List.range (end_date + 1 - init_date)).map (fun i => init_date + i)

/-- One output row of `process_room_data`, given the previous day's filled
bankroll `prev` (for the first grid day, the initial bankroll):

* `bankroll`: the session's value if the day has one, else the forward-filled
  `prev` (`ffill`, seeded with `initial_bankroll` on the first day);
* `cashflow`, `tournaments`: the session's values, else `fillna(0)`;
* `pure_profit = (bankroll - cashflow) - shifted_bankroll` where the shifted
  series at this row is exactly `prev`. -/
def mkDay (obs : List SessionRow) (d : ℕ) (prev : ℚ) : ReconDay where
  date := d
  bankroll := match findObs obs d with
    | some o => o.bankroll
    | none => prev
  cashflow := match findObs obs d with
    | some o => o.cashflow
    | none => 0
  tournaments := match findObs obs d with
    | some o => o.tournaments
    | none => 0
  pure_profit :=
    ((match findObs obs d with
      | some o => o.bankroll
      | none => prev) -
     (match findObs obs d with
      | some o => o.cashflow
      | none => 0)) - prev

/-- The column pipeline of `process_room_data` (seed first day, `ffill`
bankroll, `fillna(0)` flows, shift, subtract), expressed as one pass down the
daily grid carrying the previous filled bankroll. -/
def fillDays (obs : List SessionRow) (prev : ℚ) : List ℕ → List ReconDay
  | [] => []
  | d :: ds => mkDay obs d prev :: fillDays obs (mkDay obs d prev).bankroll ds

/-- `process_room_data(sessions_df, initial_bankroll, init_date, end_date)`
(lines 205-230).  On an empty grid (`end_date < init_date`) the source hits
`df['bankroll'].iloc[0]` on an empty frame and raises `IndexError`; this is
modelled as `none`. -/
def process_room_data (sessions_df : List SessionRow) (initial_bankroll : ℚ)
    (init_date end_date : ℕ) : Option (List ReconDay) :=
  if (grid init_date end_date).isEmpty then none
  else some (fillDays sessions_df initial_bankroll (grid init_date end_date))

/-- The "previous balance" of row `j` of a reconciled series: the prior row's
filled bankroll, and for the first row the account's initial bankroll (the
source sets `shifted_bankroll.iloc[0] = initial_bankroll` unconditionally). -/
def prevBalance (initial : ℚ) (l : List ReconDay) : ℕ → ℚ
  | 0 => initial
  | j + 1 => (l.getD j ⟨0, 0, 0, 0, 0⟩).bankroll

/-! ## Basic lemmas about the grid and the fill pass -/

theorem grid_length (a e : ℕ) : (grid a e).length = e + 1 - a := by
  simp [grid]

theorem grid_get (a e : ℕ) (j : ℕ) (h : j < (grid a e).length) :
    (grid a e).get ⟨j, h⟩ = a + j := by
  simp [grid]

theorem grid_mem (a e d : ℕ) : d ∈ grid a e ↔ a ≤ d ∧ d ≤ e := by
  simp only [grid, List.mem_map, List.mem_range]
  constructor
  · rintro ⟨i, hi, rfl⟩
    omega
  · rintro ⟨h1, h2⟩
    exact ⟨d - a, by omega, by omega⟩

theorem grid_nodup (a e : ℕ) : (grid a e).Nodup := by
  have h : Function.Injective (fun i => a + i) := by
    intro x y hxy
    simp only at hxy
    omega
  exact List.Nodup.map h (List.nodup_range _)

theorem grid_isEmpty (a e : ℕ) : (grid a e).isEmpty = true ↔ e < a := by
  rw [List.isEmpty_iff_length_eq_zero, grid_length]
  omega

theorem fillDays_length (obs : List SessionRow) (prev : ℚ) (ds : List ℕ) :
    (fillDays obs prev ds).length = ds.length := by
  induction ds generalizing prev with
  | nil => rfl
  | cons d ds ih => simp [fillDays, ih]

theorem prevBalance_cons (initial : ℚ) (x : ReconDay) (xs : List ReconDay) (j : ℕ) :
    prevBalance initial (x :: xs) (j + 1) = prevBalance x.bankroll xs j := by
  cases j with
  | zero => rfl
  | succ k => rfl

/-- Row `j` of the fill pass is `mkDay` at grid day `j`, fed with the previous
row's filled bankroll (`initial` for the first row). -/
theorem fillDays_get (obs : List SessionRow) (ds : List ℕ) (prev : ℚ) (j : ℕ)
    (h : j < ds.length) (h' : j < (fillDays obs prev ds).length) :
    (fillDays obs prev ds).get ⟨j, h'⟩ =
      mkDay obs (ds.get ⟨j, h⟩) (prevBalance prev (fillDays obs prev ds) j) := by
  induction ds generalizing prev j with
  | nil => simp at h
  | cons d ds ih =>
    cases j with
    | zero => rfl
    | succ k =>
      have hk : k < ds.length := by simpa using h
      have hk' : k < (fillDays obs (mkDay obs d prev).bankroll ds).length := by
        rw [fillDays_length]; exact hk
      calc (fillDays obs prev (d :: ds)).get ⟨k + 1, h'⟩
          = (fillDays obs (mkDay obs d prev).bankroll ds).get ⟨k, hk'⟩ := rfl
        _ = mkDay obs (ds.get ⟨k, hk⟩)
              (prevBalance (mkDay obs d prev).bankroll
                (fillDays obs (mkDay obs d prev).bankroll ds) k) := ih _ _ hk hk'
        _ = mkDay obs ((d :: ds).get ⟨k + 1, h⟩)
              (prevBalance prev (fillDays obs prev (d :: ds)) (k + 1)) := by
              simp only [fillDays, prevBalance_cons]
              rfl

theorem mkDay_pure_profit (obs : List SessionRow) (d : ℕ) (prev : ℚ) :
    (mkDay obs d prev).pure_profit =
      ((mkDay obs d prev).bankroll - (mkDay obs d prev).cashflow) - prev := rfl

theorem mkDay_date (obs : List SessionRow) (d : ℕ) (prev : ℚ) :
    (mkDay obs d prev).date = d := rfl

theorem mkDay_no_obs (obs : List SessionRow) (d : ℕ) (prev : ℚ)
    (h : findObs obs d = none) :
    (mkDay obs d prev).bankroll = prev ∧ (mkDay obs d prev).cashflow = 0 ∧
      (mkDay obs d prev).tournaments = 0 := by
  refine ⟨?_, ?_, ?_⟩ <;> (unfold mkDay; rw [h])

theorem mkDay_obs (obs : List SessionRow) (d : ℕ) (prev : ℚ) (o : SessionRow)
    (h : findObs obs d = some o) :
    (mkDay obs d prev).bankroll = o.bankroll ∧
      (mkDay obs d prev).cashflow = o.cashflow ∧
      (mkDay obs d prev).tournaments = o.tournaments := by
  refine ⟨?_, ?_, ?_⟩ <;> (unfold mkDay; rw [h])

/-- `process_room_data` succeeds exactly on non-empty grids, and then returns
the fill pass over the full grid. -/
theorem process_room_data_eq (obs : List SessionRow) (b0 : ℚ) (a e : ℕ) (ha : a ≤ e) :
    process_room_data obs b0 a e = some (fillDays obs b0 (grid a e)) := by
  rw [process_room_data, if_neg]
  intro h
  have := (grid_isEmpty a e).mp h
  omega

theorem process_room_data_none (obs : List SessionRow) (b0 : ℚ) (a e : ℕ) :
    process_room_data obs b0 a e = none ↔ e < a := by
  rw [process_room_data]
  by_cases h : (grid a e).isEmpty
  · rw [if_pos h]
    simpa using (grid_isEmpty a e).mp h
  · rw [if_neg h]
    constructor
    · intro hc
      exact absurd hc (Option.some_ne_none _)
    · intro hlt
      exact absurd ((grid_isEmpty a e).mpr hlt) h

/-! ## The ledger store and its mutation protocol

The three tables of `init_db` (lines 16-60): `rooms`, `sessions` (with
`UNIQUE(room_id, date)`), and the append-only `edits_history`.  Row ids are
modelled by monotone counters (SQLite `INTEGER PRIMARY KEY` hands out fresh
rowids on insert). -/

/-- A full row of the `sessions` table. -/
structure Session where
  id : ℕ
  room_id : ℕ
  date : ℕ
  tournaments : ℚ
  cashflow : ℚ
  bankroll : ℚ
deriving DecidableEq

/-- A full row of the `rooms` table. -/
structure Room where
  id : ℕ
  name : String
  initial_bankroll : ℚ
  init_date : ℕ
deriving DecidableEq

/-- The serialized `old_value`/`new_value` strings written into
`edits_history`, modelled structurally: the sentinel strings
`'INITIAL_INSERT'`, `'PREVIOUS_STATE_NOT_CAPTURED'`, `'DELETED'`, `str(None)`,
the `str(new_value_dict)` of `add_session`, and the `str(...)` of a full
session or room row. -/
inductive AuditVal where
  | initial_insert
  | previous_state_not_captured
  | deleted
  | none_row
  | session_values (date : ℕ) (tournaments cashflow bankroll : ℚ)
  | session_row (s : Session)
  | room_row (r : Room)
deriving DecidableEq

/-- A row of `edits_history`.  The `edit_time` column (`datetime('now')`) is
not modelled: no claim depends on wall-clock time. -/
structure AuditEntry where
  table_name : String
  record_id : ℕ
  old_value : AuditVal
  new_value : AuditVal
  user_action : String
deriving DecidableEq

/-- The database state. -/
structure DbState where
  rooms : List Room
  sessions : List Session
  edits_history : List AuditEntry
  next_room_id : ℕ
  next_session_id : ℕ
deriving DecidableEq

/-- The write path of `setup_rooms` (lines 94-107): insert the room, then its
initial session `(room_id, init_date, 0, 0, initial_bankroll)`, in one
transaction.  A duplicate name violates `UNIQUE(name)`, raises
`sqlite3.IntegrityError`, and nothing is persisted. -/
def setup_rooms (st : DbState) (name : String) (initial_bankroll : ℚ)
    (init_date : ℕ) : DbState :=
  if st.rooms.any (fun r => r.name = name) then st
  else
    { st with
      rooms := st.rooms ++ [⟨st.next_room_id, name, initial_bankroll, init_date⟩],
      sessions := st.sessions ++
        [⟨st.next_session_id, st.next_room_id, init_date, 0, 0, initial_bankroll⟩],
      next_room_id := st.next_room_id + 1,
      next_session_id := st.next_session_id + 1 }

/-- The write path of `add_session` (lines 147-203): an
`INSERT ... ON CONFLICT(room_id, date) DO UPDATE` with
`tournaments = tournaments + excluded.tournaments`,
`cashflow = cashflow + excluded.cashflow`, `bankroll = excluded.bankroll`,
followed by one `edits_history` insert.

When the conflict branch fires, no row is inserted, so SQLite's
`last_insert_rowid()` on the brand-new connection `conn_write` is `0`;
`cursor.lastrowid` is therefore `0`, not Python `None`, and the
`if session_id is None` update-detection branch (lines 159-172) never runs.
The audit entry is written with `record_id = 0`, `old_value =
'INITIAL_INSERT'` and `user_action = 'CREATE'` even when an existing row was
merged. -/
def add_session (st : DbState) (room_id date : ℕ)
    (tournaments cashflow bankroll : ℚ) : DbState :=
  match st.sessions.find? (fun s => s.room_id = room_id ∧ s.date = date) with
  | some _ =>
    { st with
      sessions := st.sessions.map (fun s =>
        if s.room_id = room_id ∧ s.date = date then
          { s with
            tournaments := s.tournaments + tournaments,
            cashflow := s.cashflow + cashflow,
            bankroll := bankroll }
        else s),
      edits_history := st.edits_history ++
        [⟨"sessions", 0, AuditVal.initial_insert,
          AuditVal.session_values date tournaments cashflow bankroll, "CREATE"⟩] }
  | none =>
    { st with
      sessions := st.sessions ++
        [⟨st.next_session_id, room_id, date, tournaments, cashflow, bankroll⟩],
      next_session_id := st.next_session_id + 1,
      edits_history := st.edits_history ++
        [⟨"sessions", st.next_session_id, AuditVal.initial_insert,
          AuditVal.session_values date tournaments cashflow bankroll, "CREATE"⟩] }

/-- `delete_room` (lines 611-648): write one audit entry for the room (full
prior row, action `DELETE`), then one per session of the room in table order
(full prior row, action `DELETE_CASCADE`), then delete the sessions and the
room, in one transaction. -/
def delete_room (st : DbState) (room_id : ℕ) : DbState :=
  { st with
    edits_history := st.edits_history ++
      [⟨"rooms", room_id,
        (match st.rooms.find? (fun r => r.id = room_id) with
         | some r => AuditVal.room_row r
         | none => AuditVal.none_row),
        AuditVal.deleted, "DELETE"⟩] ++
      (st.sessions.filter (fun s => s.room_id = room_id)).map (fun s =>
        ⟨"sessions", s.id, AuditVal.session_row s, AuditVal.deleted,
          "DELETE_CASCADE"⟩),
    sessions := st.sessions.filter (fun s => ¬ s.room_id = room_id),
    rooms := st.rooms.filter (fun r => ¬ r.id = room_id) }

/-- The per-room projection `sessions[sessions.room_id == id][['date',
'bankroll', 'cashflow', 'tournaments']]` handed to the reconciliation
engine. -/
def roomRows (sessions : List Session) (rid : ℕ) : List SessionRow :=
  (sessions.filter (fun s => s.room_id = rid)).map
    (fun s => ⟨s.date, s.tournaments, s.cashflow, s.bankroll⟩)

/-! ## Calendar arithmetic

Day ordinals are days since 1970-01-01 (a Thursday).  `civilFromDays` is the
standard proleptic-Gregorian conversion (exact for every ordinal `≥ 0`, i.e.
every date from 1970 on, which covers every `Timestamp` the app can produce.) -/

/-- Gregorian leap year. -/
def isLeap (y : ℕ) : Bool :=
  (y % 4 = 0 ∧ ¬ y % 100 = 0) ∨ y % 400 = 0

/-- Days in the months strictly before month `m` (1-based) of a year. -/
def monthDaysBefore (leap : Bool) (m : ℕ) : ℕ :=
  match m with
  | 1 => 0
  | 2 => 31
  | 3 => 59 + (if leap then 1 else 0)
  | 4 => 90 + (if leap then 1 else 0)
  | 5 => 120 + (if leap then 1 else 0)
  | 6 => 151 + (if leap then 1 else 0)
  | 7 => 181 + (if leap then 1 else 0)
  | 8 => 212 + (if leap then 1 else 0)
  | 9 => 243 + (if leap then 1 else 0)
  | 10 => 273 + (if leap then 1 else 0)
  | 11 => 304 + (if leap then 1 else 0)
  | _ => 334 + (if leap then 1 else 0)

/-- Day ordinal to Gregorian `(year, month, day)`. -/
def civilFromDays (ord : ℕ) : ℕ × ℕ × ℕ :=
  let z := ord + 719468
  let era := z / 146097
  let doe := z % 146097
  let yoe := (doe - doe / 1460 + doe / 36524 - doe / 146096) / 365
  let y := yoe + era * 400
  let doy := doe - (365 * yoe + yoe / 4 - yoe / 100)
  let mp := (5 * doy + 2) / 153
  let d := doy - (153 * mp + 2) / 5 + 1
  let m := if mp < 10 then mp + 3 else mp - 9
  (if m ≤ 2 then y + 1 else y, m, d)

/-- The `%Y` of `strftime`. -/
def yearOf (ord : ℕ) : ℕ := (civilFromDays ord).1

/-- The `%m` of `strftime` (1-based month). -/
def monthOf (ord : ℕ) : ℕ := (civilFromDays ord).2.1

/-- `tm_yday`: 0-based day of the year. -/
def dayOfYear (ord : ℕ) : ℕ :=
  monthDaysBefore (isLeap (yearOf ord)) (monthOf ord) + ((civilFromDays ord).2.2 - 1)

/-- `tm_wday`: weekday with Sunday = 0 (1970-01-01 is a Thursday = 4). -/
def weekdaySun (ord : ℕ) : ℕ := (ord + 4) % 7

/-- Weekday with Monday = 0. -/
def weekdayMon (ord : ℕ) : ℕ := (ord + 3) % 7

/-- The `%U` of `strftime`: week of the year, treating Sunday as the first day
of a week; days before the year's first Sunday are week 0. -/
def uWeek (ord : ℕ) : ℕ := (dayOfYear ord + 7 - weekdaySun ord) / 7

/-- The Monday on or before a day (the start of its ISO week). -/
def mondayOnOrBefore (ord : ℕ) : ℕ := ord - weekdayMon ord

/-- The ISO-8601 week number: the week containing a day's Thursday, counted
within that Thursday's year. -/
def isoWeek (ord : ℕ) : ℕ := dayOfYear (mondayOnOrBefore ord + 3) / 7 + 1

/-! ## Period resampling (`room_stats` lines 286-309, `global_stats` 513-535)

`resample('W-MON')` bins timestamps into weeks whose edges are Mondays; for
weekly rules pandas defaults to `closed='right', label='right'`, so a day `d`
belongs to the bin labelled by the first Monday on or after `d` (the bin spans
Tuesday .. Monday).  `resample('ME')` / `resample('YE')` bin by calendar month
/ year and label with the period's last day; composing with
`strftime('%Y-%m')` / `strftime('%Y')` labels each bucket by the year-month /
year of its days, which is how the bins are modelled here. -/

/-- The `W-MON` bucket of a day: the first Monday on or after it. -/
def weekBucket (ord : ℕ) : ℕ := ord + (7 - weekdayMon ord) % 7

/-- The `ME` bucket key of a day, as rendered by `strftime('%Y-%m')`. -/
def monthBucket (ord : ℕ) : ℕ × ℕ := (yearOf ord, monthOf ord)

/-- The `YE` bucket key of a day, as rendered by `strftime('%Y')`. -/
def yearBucket (ord : ℕ) : ℕ := yearOf ord

/-- `data.set_index('date').resample(rule).agg({col: 'sum'})`, for a bucket key
function `key` and a summed column `f`: one `(bucket, sum)` row per bucket
occurring in the series.  On the dense daily series produced by the engine
every bin between the first and last day is non-empty, so the occurring
buckets are exactly the pandas bins. -/
def resampleAgg {α : Type} [DecidableEq α] (key : ℕ → α) (f : ReconDay → ℚ)
    (l : List ReconDay) : List (α × ℚ) :=
  ((l.map (fun x => key x.date)).dedup).map
    (fun b => (b, ((l.filter (fun x => key x.date = b)).map f).sum))

/-- The weekly bar-chart label `strftime('Sem. %U %Y')`, by numeric content:
the `%U` week number and the `%Y` year of the bucket's Monday. -/
def weekLabel (bucketMonday : ℕ) : ℕ × ℕ := (uWeek bucketMonday, yearOf bucketMonday)

/-! ## The cross-room merge of `global_stats` (lines 405-476) -/

/-- The per-room date range of `global_stats`:
`full_date_range[full_date_range >= room_init_date]` where `full_date_range`
runs from the overall minimum date to today. -/
def roomDateRange (min_overall_date end_date room_init_date : ℕ) : List ℕ :=
  (grid min_overall_date end_date).filter (fun d => room_init_date ≤ d)

/-- The per-room reconciled frame built inline by `global_stats` (lines
430-463): reindex on the room's date range, seed the first day with the
initial bankroll if it has no session, `ffill` the bankroll, zero-fill the
flows, and derive `pure_profit` against the shifted bankroll.  When the range
is non-empty its first day is the room's `init_date` (the overall minimum is
`≤` every room's `init_date`), so the source's conditional
`shifted_bankroll.loc[room_init_date] = initial_bankroll` coincides with the
unconditional seeding of `fillDays`. -/
def globalRoomSeries (sessions : List Session) (min_overall_date end_date : ℕ)
    (room : Room) : List ReconDay :=
  fillDays (roomRows sessions room.id) room.initial_bankroll
    (roomDateRange min_overall_date end_date room.init_date)

/-- `df_global = pd.concat(processed_room_dfs)` (line 469). -/
def concatRoomSeries (sessions : List Session) (min_overall_date end_date : ℕ) :
    List Room → List ReconDay
  | [] => []
  | r :: rs => globalRoomSeries sessions min_overall_date end_date r ++
      concatRoomSeries sessions min_overall_date end_date rs

/-- The row of `df_global.groupby('date').agg(total_bankroll=..., pure_profit=...,
total_tournaments=...)` (lines 472-476) at one date: the three column sums over
the concatenated rows carrying that date. -/
def groupbyDateTotals (l : List ReconDay) (d : ℕ) : ℚ × ℚ × ℚ :=
  (((l.filter (fun x => x.date = d)).map (fun x => x.bankroll)).sum,
   ((l.filter (fun x => x.date = d)).map (fun x => x.pure_profit)).sum,
   ((l.filter (fun x => x.date = d)).map (fun x => x.tournaments)).sum)

/-- The per-account reconciled contribution at a date, per the reconciliation
engine `process_room_data`: the (balance, profit, activity) of the unique entry
dated `d`, and `(0, 0, 0)` when the account has no entry for `d`. -/
def reconValueAt (sessions : List Session) (end_date d : ℕ) (r : Room) : ℚ × ℚ × ℚ :=
  match process_room_data (roomRows sessions r.id) r.initial_bankroll
      r.init_date end_date with
  | none => (0, 0, 0)
  | some l => groupbyDateTotals l d

/-! ## Aggregation lemmas -/

theorem sum_map_add {α : Type} (l : List α) (f g : α → ℚ) :
    (l.map (fun x => f x + g x)).sum = (l.map f).sum + (l.map g).sum := by
  induction l with
  | nil => simp
  | cons x xs ih =>
    simp only [List.map_cons, List.sum_cons, ih]
    ring

theorem sum_map_ite_not_mem {α : Type} [DecidableEq α] (c : α) (q : ℚ)
    (keys : List α) (h : c ∉ keys) :
    (keys.map (fun b => if c = b then q else 0)).sum = 0 := by
  induction keys with
  | nil => simp
  | cons k ks ih =>
    have hck : ¬ c = k := fun hc => h (hc ▸ List.mem_cons_self k ks)
    have hks : c ∉ ks := fun hc => h (List.mem_cons_of_mem k hc)
    simp [hck, ih hks]

theorem sum_map_ite_mem {α : Type} [DecidableEq α] (c : α) (q : ℚ)
    (keys : List α) (hnd : keys.Nodup) (hc : c ∈ keys) :
    (keys.map (fun b => if c = b then q else 0)).sum = q := by
  induction keys with
  | nil => simp at hc
  | cons k ks ih =>
    rcases List.mem_cons.mp hc with hck | hck
    · subst hck
      have : c ∉ ks := (List.nodup_cons.mp hnd).1
      simp [sum_map_ite_not_mem c q ks this]
    · have hck' : ¬ c = k := by
        intro hE
        exact (List.nodup_cons.mp hnd).1 (hE ▸ hck)
      simp only [List.map_cons, List.sum_cons, if_neg hck',
        ih (List.nodup_cons.mp hnd).2 hck, zero_add]

/-- Fiberwise summation: summing a column bucket-by-bucket over a duplicate-free
covering list of bucket keys recovers the column's total. -/
theorem partition_sum {α β : Type} [DecidableEq α] (k : β → α) (f : β → ℚ)
    (l : List β) (keys : List α) (hnd : keys.Nodup) (hcov : ∀ x ∈ l, k x ∈ keys) :
    (keys.map (fun b => ((l.filter (fun x => k x = b)).map f).sum)).sum
      = (l.map f).sum := by
  induction l with
  | nil => simp
  | cons x xs ih =>
    have hterm : ∀ b : α,
        (((x :: xs).filter (fun y => k y = b)).map f).sum
          = (if k x = b then f x else 0) +
            ((xs.filter (fun y => k y = b)).map f).sum := by
      intro b
      by_cases hb : k x = b
      · simp [List.filter_cons, hb]
      · simp [List.filter_cons, hb]
    simp only [hterm, sum_map_add]
    rw [sum_map_ite_mem (k x) (f x) keys hnd (hcov x (List.mem_cons_self x xs)),
      ih (fun y hy => hcov y (List.mem_cons_of_mem x hy))]
    simp

/-- Resampling is a partition: the bucket sums of `resampleAgg` add up to the
daily total of the same column over the same rows. -/
theorem resampleAgg_sum {α : Type} [DecidableEq α] (key : ℕ → α)
    (f : ReconDay → ℚ) (l : List ReconDay) :
    ((resampleAgg key f l).map (fun p => p.2)).sum = (l.map f).sum := by
  unfold resampleAgg
  rw [List.map_map]
  exact partition_sum (fun x => key x.date) f l _ (List.nodup_dedup _)
    (fun x hx => List.mem_dedup.mpr (List.mem_map_of_mem (fun y => key y.date) hx))

/-! ## Lemmas about the per-room date range of the merge -/

theorem grid_cons (a c : ℕ) (h : a ≤ c) : grid a c = a :: grid (a + 1) c := by
  have hc : c + 1 - a = (c - a) + 1 := by omega
  rw [grid, hc, List.range_succ_eq_map, List.map_cons, List.map_map]
  rw [grid]
  have hfun : ((fun i => a + i) ∘ Nat.succ) = fun i => a + 1 + i := by
    funext i
    simp only [Function.comp_apply]
    omega
  rw [hfun]
  have hc2 : c + 1 - (a + 1) = c - a := by omega
  rw [hc2]
  simp

theorem grid_nil (a c : ℕ) (h : c < a) : grid a c = [] := by
  have : c + 1 - a = 0 := by omega
  rw [grid, this]
  rfl

theorem grid_filter_ge (k : ℕ) : ∀ (a c : ℕ),
    (grid a c).filter (fun d => a + k ≤ d) = grid (a + k) c := by
  induction k with
  | zero =>
    intro a c
    simp only [Nat.add_zero]
    refine List.filter_eq_self.mpr ?_
    intro d hd
    have := (grid_mem a c d).mp hd
    simpa using this.1
  | succ k ih =>
    intro a c
    by_cases hac : a ≤ c
    · have hhead : ¬ ((decide (a + (k + 1) ≤ a)) = true) := by
        simp only [decide_eq_true_eq]
        omega
      rw [grid_cons a c hac, List.filter_cons, if_neg hhead]
      have hfun : (fun d => decide (a + (k + 1) ≤ d)) =
          (fun d => decide (a + 1 + k ≤ d)) := by
        funext d
        have : a + (k + 1) = a + 1 + k := by omega
        rw [this]
      rw [hfun, ih (a + 1) c]
      have : a + 1 + k = a + (k + 1) := by omega
      rw [this]
    · rw [grid_nil a c (by omega), grid_nil (a + (k + 1)) c (by omega)]
      rfl

/-- With the overall minimum date at or before the room's `init_date`, the
room's slice of the global grid is exactly the room's own reconciliation
grid. -/
theorem roomDateRange_eq (minD endD initD : ℕ) (h : minD ≤ initD) :
    roomDateRange minD endD initD = grid initD endD := by
  rw [roomDateRange]
  have h1 : initD = minD + (initD - minD) := by omega
  calc (grid minD endD).filter (fun d => initD ≤ d)
      = (grid minD endD).filter (fun d => minD + (initD - minD) ≤ d) := by
        rw [← h1]
    _ = grid (minD + (initD - minD)) endD := grid_filter_ge (initD - minD) minD endD
    _ = grid initD endD := by rw [← h1]

/-! ## Date bookkeeping for reconciled series -/

theorem fillDays_map_date (obs : List SessionRow) (prev : ℚ) (ds : List ℕ) :
    (fillDays obs prev ds).map (fun x => x.date) = ds := by
  induction ds generalizing prev with
  | nil => rfl
  | cons d ds ih => simp [fillDays, mkDay_date, ih]

theorem fillDays_filter_date_nil (obs : List SessionRow) (prev : ℚ) (ds : List ℕ)
    (d : ℕ) (h : d ∉ ds) :
    (fillDays obs prev ds).filter (fun x => x.date = d) = [] := by
  refine List.filter_eq_nil_iff.mpr ?_
  intro x hx
  have hxd : x.date ∈ ds := by
    rw [← fillDays_map_date obs prev ds]
    exact List.mem_map_of_mem (fun y => y.date) hx
  simp only [decide_eq_true_eq]
  intro hEq
  exact h (hEq ▸ hxd)

theorem groupbyDateTotals_append (l1 l2 : List ReconDay) (d : ℕ) :
    groupbyDateTotals (l1 ++ l2) d =
      ((groupbyDateTotals l1 d).1 + (groupbyDateTotals l2 d).1,
       (groupbyDateTotals l1 d).2.1 + (groupbyDateTotals l2 d).2.1,
       (groupbyDateTotals l1 d).2.2 + (groupbyDateTotals l2 d).2.2) := by
  simp [groupbyDateTotals, List.filter_append]

theorem groupbyDateTotals_zero (l : List ReconDay) (d : ℕ)
    (h : l.filter (fun x => x.date = d) = []) :
    groupbyDateTotals l d = (0, 0, 0) := by
  simp [groupbyDateTotals, h]

theorem process_room_data_some (obs : List SessionRow) (b0 : ℚ) (a e : ℕ)
    (l : List ReconDay) (h : process_room_data obs b0 a e = some l) :
    l = fillDays obs b0 (grid a e) := by
  rw [process_room_data] at h
  by_cases hE : (grid a e).isEmpty
  · rw [if_pos hE] at h
    exact absurd h (by simp)
  · rw [if_neg hE] at h
    exact (Option.some_injective _ h).symm

/-! ## The claims -/

/-- C1: every reconciled day of the reconciliation engine satisfies
`pure_profit = (bankroll - cashflow) - previous_balance`, where the previous
balance of row `j` is row `j-1`'s filled bankroll and the first row's previous
balance is the initial bankroll (even when the first day has a session);
equivalently, `previous_balance + pure_profit + cashflow = bankroll` on every
row. -/
theorem profit_invariant (obs : List SessionRow) (b0 : ℚ) (a e : ℕ)
    (l : List ReconDay) (h : process_room_data obs b0 a e = some l)
    (j : ℕ) (hj : j < l.length) :
    (l.get ⟨j, hj⟩).pure_profit =
      ((l.get ⟨j, hj⟩).bankroll - (l.get ⟨j, hj⟩).cashflow) - prevBalance b0 l j
    ∧ prevBalance b0 l j + (l.get ⟨j, hj⟩).pure_profit + (l.get ⟨j, hj⟩).cashflow
        = (l.get ⟨j, hj⟩).bankroll := by
  have hl := process_room_data_some obs b0 a e l h
  subst hl
  have hg : j < (grid a e).length := by
    rw [← fillDays_length obs b0 (grid a e)]
    exact hj
  rw [fillDays_get obs (grid a e) b0 j hg hj, mkDay_pure_profit]
  constructor
  · rfl
  · ring

/-- C1 witness: the invariant at a concrete instance (initial bankroll 100,
one session on the third grid day with flow 50 and measured balance 170). -/
theorem profit_invariant_witness :
    ((fillDays [⟨19725, 1, 50, 170⟩] 100 (grid 19723 19725)).get
        ⟨2, by rw [fillDays_length, grid_length]; omega⟩).pure_profit =
      (((fillDays [⟨19725, 1, 50, 170⟩] 100 (grid 19723 19725)).get
        ⟨2, by rw [fillDays_length, grid_length]; omega⟩).bankroll -
       ((fillDays [⟨19725, 1, 50, 170⟩] 100 (grid 19723 19725)).get
        ⟨2, by rw [fillDays_length, grid_length]; omega⟩).cashflow) -
        prevBalance 100 (fillDays [⟨19725, 1, 50, 170⟩] 100 (grid 19723 19725)) 2
    ∧ prevBalance 100 (fillDays [⟨19725, 1, 50, 170⟩] 100 (grid 19723 19725)) 2 +
       ((fillDays [⟨19725, 1, 50, 170⟩] 100 (grid 19723 19725)).get
        ⟨2, by rw [fillDays_length, grid_length]; omega⟩).pure_profit +
       ((fillDays [⟨19725, 1, 50, 170⟩] 100 (grid 19723 19725)).get
        ⟨2, by rw [fillDays_length, grid_length]; omega⟩).cashflow
        = ((fillDays [⟨19725, 1, 50, 170⟩] 100 (grid 19723 19725)).get
        ⟨2, by rw [fillDays_length, grid_length]; omega⟩).bankroll :=
  profit_invariant [⟨19725, 1, 50, 170⟩] 100 19723 19725
    (fillDays [⟨19725, 1, 50, 170⟩] 100 (grid 19723 19725))
    (process_room_data_eq [⟨19725, 1, 50, 170⟩] 100 19723 19725 (by omega)) 2
    (by rw [fillDays_length, grid_length]; omega)

/-- C2: for `start_date ≤ as_of_date` the engine returns exactly
`as_of_date - start_date + 1` rows, one per calendar day, with dates strictly
increasing by one day and no gaps, whatever the session table contains. -/
theorem reconciled_grid_complete (obs : List SessionRow) (b0 : ℚ) (a e : ℕ)
    (h : a ≤ e) :
    ∃ l, process_room_data obs b0 a e = some l ∧
      l.length = (e - a) + 1 ∧
      ∀ j (hj : j < l.length), (l.get ⟨j, hj⟩).date = a + j := by
  refine ⟨fillDays obs b0 (grid a e), process_room_data_eq obs b0 a e h, ?_, ?_⟩
  · rw [fillDays_length, grid_length]
    omega
  · intro j hj
    have hg : j < (grid a e).length := by
      rw [← fillDays_length obs b0 (grid a e)]
      exact hj
    rw [fillDays_get obs (grid a e) b0 j hg hj, mkDay_date, grid_get]

/-- C2 witness: a three-day grid with an empty session table. -/
theorem reconciled_grid_complete_witness :
    ∃ l, process_room_data [] (100 : ℚ) 19723 19725 = some l ∧
      l.length = (19725 - 19723) + 1 ∧
      ∀ j (hj : j < l.length), (l.get ⟨j, hj⟩).date = 19723 + j :=
  reconciled_grid_complete [] 100 19723 19725 (by omega)

/-- C3: in the reconciled sequence, a first grid day with no session carries
the initial bankroll; every later day with no session inherits the previous
day's filled bankroll; and every day with no session has cashflow 0 and
tournaments 0. -/
theorem forward_fill_semantics (obs : List SessionRow) (b0 : ℚ) (a e : ℕ)
    (l : List ReconDay) (h : process_room_data obs b0 a e = some l) :
    (findObs obs a = none → ∀ h0 : 0 < l.length, (l.get ⟨0, h0⟩).bankroll = b0)
    ∧ (∀ j (hj : j + 1 < l.length), findObs obs (a + (j + 1)) = none →
        (l.get ⟨j + 1, hj⟩).bankroll = (l.get ⟨j, Nat.lt_of_succ_lt hj⟩).bankroll)
    ∧ (∀ j (hj : j < l.length), findObs obs (a + j) = none →
        (l.get ⟨j, hj⟩).cashflow = 0 ∧ (l.get ⟨j, hj⟩).tournaments = 0) := by
  have hl := process_room_data_some obs b0 a e l h
  subst hl
  have hlen := fillDays_length obs b0 (grid a e)
  refine ⟨?_, ?_, ?_⟩
  · intro hno h0
    have hg : 0 < (grid a e).length := by rw [← hlen]; exact h0
    rw [fillDays_get obs (grid a e) b0 0 hg h0]
    have hd : (grid a e).get ⟨0, hg⟩ = a := by rw [grid_get]; omega
    rw [hd]
    exact (mkDay_no_obs obs a (prevBalance b0 (fillDays obs b0 (grid a e)) 0) hno).1
  · intro j hj hno
    have hg : j + 1 < (grid a e).length := by rw [← hlen]; exact hj
    rw [fillDays_get obs (grid a e) b0 (j + 1) hg hj]
    have hd : (grid a e).get ⟨j + 1, hg⟩ = a + (j + 1) := by rw [grid_get]
    rw [hd]
    rw [(mkDay_no_obs obs (a + (j + 1))
      (prevBalance b0 (fillDays obs b0 (grid a e)) (j + 1)) hno).1]
    rw [prevBalance]
    exact congrArg ReconDay.bankroll
      (List.getD_eq_getElem (fillDays obs b0 (grid a e)) _ (Nat.lt_of_succ_lt hj)).symm ▸ rfl
  · intro j hj hno
    have hg : j < (grid a e).length := by rw [← hlen]; exact hj
    rw [fillDays_get obs (grid a e) b0 j hg hj]
    have hd : (grid a e).get ⟨j, hg⟩ = a + j := by rw [grid_get]
    rw [hd]
    exact ⟨(mkDay_no_obs obs (a + j) _ hno).2.1, (mkDay_no_obs obs (a + j) _ hno).2.2⟩

/-- C3 witness: initial bankroll 100, a single session on the middle day of a
three-day grid; the first and last days have no session. -/
theorem forward_fill_semantics_witness :
    (findObs [⟨19724, 2, 5, 120⟩] 19723 = none →
      ∀ h0 : 0 < (fillDays [⟨19724, 2, 5, 120⟩] 100 (grid 19723 19725)).length,
      ((fillDays [⟨19724, 2, 5, 120⟩] 100 (grid 19723 19725)).get ⟨0, h0⟩).bankroll = 100)
    ∧ (∀ j (hj : j + 1 < (fillDays [⟨19724, 2, 5, 120⟩] 100 (grid 19723 19725)).length),
        findObs [⟨19724, 2, 5, 120⟩] (19723 + (j + 1)) = none →
        ((fillDays [⟨19724, 2, 5, 120⟩] 100 (grid 19723 19725)).get ⟨j + 1, hj⟩).bankroll =
          ((fillDays [⟨19724, 2, 5, 120⟩] 100 (grid 19723 19725)).get
            ⟨j, Nat.lt_of_succ_lt hj⟩).bankroll)
    ∧ (∀ j (hj : j < (fillDays [⟨19724, 2, 5, 120⟩] 100 (grid 19723 19725)).length),
        findObs [⟨19724, 2, 5, 120⟩] (19723 + j) = none →
        ((fillDays [⟨19724, 2, 5, 120⟩] 100 (grid 19723 19725)).get ⟨j, hj⟩).cashflow = 0 ∧
        ((fillDays [⟨19724, 2, 5, 120⟩] 100 (grid 19723 19725)).get ⟨j, hj⟩).tournaments = 0) :=
  forward_fill_semantics [⟨19724, 2, 5, 120⟩] 100 19723 19725
    (fillDays [⟨19724, 2, 5, 120⟩] 100 (grid 19723 19725))
    (process_room_data_eq [⟨19724, 2, 5, 120⟩] 100 19723 19725 (by omega))

/-- C8: on `as_of_date < start_date` the engine's grid is empty and the source
raises `IndexError` at `df['bankroll'].iloc[0]` (modelled: `none`) instead of
returning an empty sequence; with a valid range the engine never errors, even
on an empty session history (it degrades to the trivially seeded series). -/
theorem empty_range_raises :
    (∀ (obs : List SessionRow) (b0 : ℚ), process_room_data obs b0 19723 19720 = none)
    ∧ (∀ (obs : List SessionRow) (b0 : ℚ) (a e : ℕ),
        process_room_data obs b0 a e = none ↔ e < a)
    ∧ (process_room_data [] (100 : ℚ) 19723 19723).isSome = true := by
  refine ⟨?_, ?_, ?_⟩
  · intro obs b0
    exact (process_room_data_none obs b0 19723 19720).mpr (by omega)
  · intro obs b0 a e
    exact process_room_data_none obs b0 a e
  · rw [process_room_data_eq [] 100 19723 19723 (by omega)]
    rfl

/-- C4: the upsert's data semantics hold (calling `add_session` twice with the
same inputs on one (room, date) doubles `tournaments` and `cashflow` and keeps
the latest `bankroll`), but on the conflict path `lastrowid` is `0`, never
Python `None`, so both calls are audited as `CREATE` (the second with
`record_id = 0`) and no `UPDATE` audit action is ever produced. -/
theorem upsert_audits_create_on_update :
    (((add_session (add_session (setup_rooms ⟨[], [], [], 1, 1⟩ "Winamax" 100 19723)
        1 19725 3 5 120) 1 19725 3 5 120).sessions.find?
          (fun s => s.room_id = 1 ∧ s.date = 19725)) =
      some ⟨2, 1, 19725, 6, 10, 120⟩)
    ∧ ((add_session (add_session (setup_rooms ⟨[], [], [], 1, 1⟩ "Winamax" 100 19723)
        1 19725 3 5 120) 1 19725 3 5 120).edits_history.getLast? =
      some ⟨"sessions", 0, AuditVal.initial_insert,
        AuditVal.session_values 19725 3 5 120, "CREATE"⟩)
    ∧ ((add_session (add_session (setup_rooms ⟨[], [], [], 1, 1⟩ "Winamax" 100 19723)
        1 19725 3 5 120) 1 19725 3 5 120).edits_history.all
          (fun en => ¬ en.user_action = "UPDATE") = true) := by
  refine ⟨?_, ?_, ?_⟩
  all_goals norm_num [add_session, setup_rooms, List.find?, List.getLast?, List.all]
  all_goals decide

/-- C5: deleting a room writes the room's audit entry (full prior row, action
`DELETE`) followed by one `DELETE_CASCADE` entry per session of the room, each
capturing the full prior session row — `N + 1` new entries in total — and
afterwards no session references the deleted room. -/
theorem cascade_delete_audits (st : DbState) (rid : ℕ) (r : Room)
    (hr : st.rooms.find? (fun x => x.id = rid) = some r) :
    (delete_room st rid).edits_history =
      st.edits_history ++
        [⟨"rooms", rid, AuditVal.room_row r, AuditVal.deleted, "DELETE"⟩] ++
        (st.sessions.filter (fun s => s.room_id = rid)).map (fun s =>
          (⟨"sessions", s.id, AuditVal.session_row s, AuditVal.deleted,
            "DELETE_CASCADE"⟩ : AuditEntry))
    ∧ (delete_room st rid).edits_history.length =
        st.edits_history.length + 1 +
          (st.sessions.filter (fun s => s.room_id = rid)).length
    ∧ (delete_room st rid).sessions.filter (fun s => s.room_id = rid) = [] := by
  refine ⟨?_, ?_, ?_⟩
  · rw [delete_room]
    simp only [hr]
  · rw [delete_room]
    simp only [hr, List.length_append, List.length_map, List.length_cons,
      List.length_nil]
  · rw [delete_room]
    simp only [List.filter_filter]
    refine List.filter_eq_nil_iff.mpr ?_
    intro s _
    simp only [Bool.and_eq_true, decide_eq_true_eq, not_and]
    intro hEq hNe
    exact absurd hEq hNe

/-- The concrete store used by the C5 witness: one room (id 1) with two
sessions, plus one unrelated session of room 2. -/
def exampleDb : DbState :=
  ⟨[⟨1, "Winamax", 100, 19723⟩],
   [⟨1, 1, 19723, 0, 0, 100⟩, ⟨2, 1, 19725, 3, 5, 120⟩, ⟨3, 2, 19725, 1, 1, 50⟩],
   [], 2, 4⟩

/-- C5 witness: the cascade audit shape at the concrete store `exampleDb`. -/
theorem cascade_delete_audits_witness :
    (delete_room exampleDb 1).edits_history =
      exampleDb.edits_history ++
        [⟨"rooms", 1, AuditVal.room_row ⟨1, "Winamax", 100, 19723⟩,
          AuditVal.deleted, "DELETE"⟩] ++
        (exampleDb.sessions.filter (fun s => s.room_id = 1)).map (fun s =>
          (⟨"sessions", s.id, AuditVal.session_row s, AuditVal.deleted,
            "DELETE_CASCADE"⟩ : AuditEntry))
    ∧ (delete_room exampleDb 1).edits_history.length =
        exampleDb.edits_history.length + 1 +
          (exampleDb.sessions.filter (fun s => s.room_id = 1)).length
    ∧ (delete_room exampleDb 1).sessions.filter (fun s => s.room_id = 1) = [] :=
  cascade_delete_audits exampleDb 1 ⟨1, "Winamax", 100, 19723⟩
    (by simp [exampleDb, List.find?])

/-- C10: on the success path, `setup_rooms` inserts the room together with an
initial session dated `init_date` with `tournaments = 0`, `cashflow = 0` and
`bankroll = initial_bankroll`; reconciling the fresh room from `init_date`
therefore finds a real session on the first grid day whose measured balance is
the initial bankroll (not a forward-fill seed). -/
theorem setup_creates_initial_observation (st : DbState) (name : String)
    (br : ℚ) (d0 : ℕ)
    (hname : st.rooms.any (fun r => r.name = name) = false)
    (hfresh : ∀ s ∈ st.sessions, ¬ s.room_id = st.next_room_id) :
    (setup_rooms st name br d0).rooms =
        st.rooms ++ [⟨st.next_room_id, name, br, d0⟩]
    ∧ roomRows (setup_rooms st name br d0).sessions st.next_room_id =
        [⟨d0, 0, 0, br⟩]
    ∧ findObs (roomRows (setup_rooms st name br d0).sessions st.next_room_id) d0 =
        some ⟨d0, 0, 0, br⟩
    ∧ ∀ e, d0 ≤ e →
        ∃ l, process_room_data
            (roomRows (setup_rooms st name br d0).sessions st.next_room_id)
            br d0 e = some l ∧
          ∃ h0 : 0 < l.length,
            (l.get ⟨0, h0⟩).date = d0 ∧ (l.get ⟨0, h0⟩).bankroll = br ∧
            (l.get ⟨0, h0⟩).cashflow = 0 ∧ (l.get ⟨0, h0⟩).tournaments = 0 := by
  have hcond : ¬ (st.rooms.any (fun r => r.name = name) = true) := by
    rw [hname]
    simp
  have hrows : roomRows (setup_rooms st name br d0).sessions st.next_room_id =
      [⟨d0, 0, 0, br⟩] := by
    rw [setup_rooms, if_neg hcond]
    simp only [roomRows, List.filter_append]
    have h1 : st.sessions.filter (fun s => s.room_id = st.next_room_id) = [] := by
      refine List.filter_eq_nil_iff.mpr ?_
      intro s hs
      simpa using hfresh s hs
    rw [h1]
    simp
  have hfind : findObs (roomRows (setup_rooms st name br d0).sessions
      st.next_room_id) d0 = some ⟨d0, 0, 0, br⟩ := by
    rw [hrows]
    simp [findObs]
  refine ⟨?_, hrows, hfind, ?_⟩
  · rw [setup_rooms, if_neg hcond]
  · intro e he
    refine ⟨fillDays (roomRows (setup_rooms st name br d0).sessions
        st.next_room_id) br (grid d0 e),
      process_room_data_eq _ br d0 e he, ?_⟩
    have h0 : 0 < (fillDays (roomRows (setup_rooms st name br d0).sessions
        st.next_room_id) br (grid d0 e)).length := by
      rw [fillDays_length, grid_length]
      omega
    have hg : 0 < (grid d0 e).length := by rw [grid_length]; omega
    refine ⟨h0, ?_⟩
    rw [fillDays_get _ (grid d0 e) br 0 hg h0]
    have hd : (grid d0 e).get ⟨0, hg⟩ = d0 := by rw [grid_get]; omega
    rw [hd]
    have hobs := mkDay_obs (roomRows (setup_rooms st name br d0).sessions
      st.next_room_id) d0
      (prevBalance br (fillDays (roomRows (setup_rooms st name br d0).sessions
        st.next_room_id) br (grid d0 e)) 0)
      ⟨d0, 0, 0, br⟩ hfind
    exact ⟨mkDay_date _ _ _, hobs.1, hobs.2.1, hobs.2.2⟩

/-- C10 witness: setting up a first room over an empty store. -/
theorem setup_creates_initial_observation_witness :
    (setup_rooms ⟨[], [], [], 1, 1⟩ "Winamax" 100 19723).rooms =
        ([] : List Room) ++ [⟨1, "Winamax", 100, 19723⟩]
    ∧ roomRows (setup_rooms ⟨[], [], [], 1, 1⟩ "Winamax" 100 19723).sessions 1 =
        [⟨19723, 0, 0, 100⟩]
    ∧ findObs (roomRows (setup_rooms ⟨[], [], [], 1, 1⟩ "Winamax" 100 19723).sessions 1)
        19723 = some ⟨19723, 0, 0, 100⟩
    ∧ ∀ e, 19723 ≤ e →
        ∃ l, process_room_data
            (roomRows (setup_rooms ⟨[], [], [], 1, 1⟩ "Winamax" 100 19723).sessions 1)
            100 19723 e = some l ∧
          ∃ h0 : 0 < l.length,
            (l.get ⟨0, h0⟩).date = 19723 ∧ (l.get ⟨0, h0⟩).bankroll = 100 ∧
            (l.get ⟨0, h0⟩).cashflow = 0 ∧ (l.get ⟨0, h0⟩).tournaments = 0 :=
  setup_creates_initial_observation ⟨[], [], [], 1, 1⟩ "Winamax" 100 19723
    rfl (by intro s hs; simp at hs)

/-! ## The cross-account merge -/

theorem globalRoomSeries_eq (sessions : List Session) (minD endD : ℕ) (r : Room)
    (h : minD ≤ r.init_date) :
    globalRoomSeries sessions minD endD r =
      fillDays (roomRows sessions r.id) r.initial_bankroll (grid r.init_date endD) := by
  rw [globalRoomSeries, roomDateRange_eq minD endD r.init_date h]

/-- A room whose `init_date` is after `d` contributes no row dated `d`: its
slice of the global grid starts at its `init_date`. -/
theorem globalRoomSeries_no_row (sessions : List Session) (minD endD d : ℕ)
    (r : Room) (hd : d < r.init_date) :
    (globalRoomSeries sessions minD endD r).filter (fun x => x.date = d) = [] := by
  rw [globalRoomSeries]
  apply fillDays_filter_date_nil
  intro hmem
  have := (List.mem_filter.mp hmem).2
  simp only [decide_eq_true_eq] at this
  omega

/-- A room whose grid does not reach `d` (`endD < d`) contributes no row dated
`d` either. -/
theorem globalRoomSeries_no_row_late (sessions : List Session) (minD endD d : ℕ)
    (r : Room) (hd : endD < d) :
    (globalRoomSeries sessions minD endD r).filter (fun x => x.date = d) = [] := by
  rw [globalRoomSeries]
  apply fillDays_filter_date_nil
  intro hmem
  have h1 := (List.mem_filter.mp hmem).1
  have := (grid_mem minD endD d).mp h1
  omega

theorem triple_add (x y : ℚ × ℚ × ℚ) :
    x + y = (x.1 + y.1, x.2.1 + y.2.1, x.2.2 + y.2.2) := rfl

/-- The grouped totals of the concatenated per-room frames at a date equal the
sum, over the rooms whose `init_date` is at or before that date, of the
per-room reconciled values at that date. -/
theorem merge_totals (sessions : List Session) (minD endD d : ℕ) (hd : d ≤ endD) :
    ∀ rooms : List Room, (∀ r ∈ rooms, minD ≤ r.init_date) →
    groupbyDateTotals (concatRoomSeries sessions minD endD rooms) d =
      ((rooms.filter (fun r => r.init_date ≤ d)).map
        (fun r => reconValueAt sessions endD d r)).sum := by
  intro rooms
  induction rooms with
  | nil => intro _; rfl
  | cons r rs ih =>
    intro hmin
    have hmin_r : minD ≤ r.init_date := hmin r (List.mem_cons_self r rs)
    have ihm := ih (fun x hx => hmin x (List.mem_cons_of_mem r hx))
    rw [concatRoomSeries, groupbyDateTotals_append, ihm]
    by_cases hrd : r.init_date ≤ d
    · have hA : groupbyDateTotals (globalRoomSeries sessions minD endD r) d =
          reconValueAt sessions endD d r := by
        rw [globalRoomSeries_eq sessions minD endD r hmin_r, reconValueAt,
          process_room_data_eq (roomRows sessions r.id) r.initial_bankroll
            r.init_date endD (le_trans hrd hd)]
      rw [hA, List.filter_cons_of_pos (by simpa using hrd), List.map_cons,
        List.sum_cons, triple_add]
    · have hA : groupbyDateTotals (globalRoomSeries sessions minD endD r) d =
          (0, 0, 0) :=
        groupbyDateTotals_zero _ d
          (globalRoomSeries_no_row sessions minD endD d r (by omega))
      rw [hA, List.filter_cons_of_neg (by simpa using hrd)]
      simp

/-- C6: at every date `d ≤ endD`, the merged totals of `global_stats`
(`total_bankroll`, summed `pure_profit`, `total_tournaments`) equal the sums
of the per-account reconciled values of `process_room_data` over the accounts
active on `d` (those with `init_date ≤ d`); an account whose `init_date` is
after `d` contributes no row at all for `d` — never a synthetic zero
balance. -/
theorem cross_account_merge (rooms : List Room) (sessions : List Session)
    (minD endD d : ℕ) (hmin : ∀ r ∈ rooms, minD ≤ r.init_date) (hd : d ≤ endD) :
    groupbyDateTotals (concatRoomSeries sessions minD endD rooms) d =
      ((rooms.filter (fun r => r.init_date ≤ d)).map
        (fun r => reconValueAt sessions endD d r)).sum
    ∧ ∀ r ∈ rooms, d < r.init_date →
        (globalRoomSeries sessions minD endD r).filter (fun x => x.date = d) = [] :=
  ⟨merge_totals sessions minD endD d hd rooms hmin,
   fun r _ hlt => globalRoomSeries_no_row sessions minD endD d r hlt⟩

/-- C6 witness: two rooms with different start dates (the second starts after
the probe date `19724`) and three sessions. -/
theorem cross_account_merge_witness :
    groupbyDateTotals (concatRoomSeries
        [⟨1, 1, 19723, 0, 0, 100⟩, ⟨2, 2, 19725, 0, 0, 50⟩, ⟨3, 1, 19724, 2, 10, 130⟩]
        19723 19726 [⟨1, "Winamax", 100, 19723⟩, ⟨2, "PMU", 50, 19725⟩]) 19724 =
      (([⟨1, "Winamax", 100, 19723⟩, ⟨2, "PMU", 50, 19725⟩].filter
          (fun r => r.init_date ≤ 19724)).map
        (fun r => reconValueAt
          [⟨1, 1, 19723, 0, 0, 100⟩, ⟨2, 2, 19725, 0, 0, 50⟩, ⟨3, 1, 19724, 2, 10, 130⟩]
          19726 19724 r)).sum
    ∧ ∀ r ∈ [(⟨1, "Winamax", 100, 19723⟩ : Room), ⟨2, "PMU", 50, 19725⟩],
        19724 < r.init_date →
        (globalRoomSeries
          [⟨1, 1, 19723, 0, 0, 100⟩, ⟨2, 2, 19725, 0, 0, 50⟩, ⟨3, 1, 19724, 2, 10, 130⟩]
          19723 19726 r).filter (fun x => x.date = 19724) = [] :=
  cross_account_merge [⟨1, "Winamax", 100, 19723⟩, ⟨2, "PMU", 50, 19725⟩]
    [⟨1, 1, 19723, 0, 0, 100⟩, ⟨2, 2, 19725, 0, 0, 50⟩, ⟨3, 1, 19724, 2, 10, 130⟩]
    19723 19726 19724
    (by
      intro r hr
      simp only [List.mem_cons, List.not_mem_nil, or_false] at hr
      rcases hr with rfl | rfl <;> decide)
    (by omega)

/-- C7: resampling is a partition of the daily series.  For each of the three
period rules (`W-MON`, `ME`, `YE`) the bucket sums of `pure_profit` add up to
the daily total of `pure_profit` over the same rows, and likewise for
`tournaments` — no day double-counted, none omitted. -/
theorem resample_partition (l : List ReconDay) :
    ((resampleAgg weekBucket (fun x => x.pure_profit) l).map (fun p => p.2)).sum
        = (l.map (fun x => x.pure_profit)).sum
    ∧ ((resampleAgg monthBucket (fun x => x.pure_profit) l).map (fun p => p.2)).sum
        = (l.map (fun x => x.pure_profit)).sum
    ∧ ((resampleAgg yearBucket (fun x => x.pure_profit) l).map (fun p => p.2)).sum
        = (l.map (fun x => x.pure_profit)).sum
    ∧ ((resampleAgg weekBucket (fun x => x.tournaments) l).map (fun p => p.2)).sum
        = (l.map (fun x => x.tournaments)).sum
    ∧ ((resampleAgg monthBucket (fun x => x.tournaments) l).map (fun p => p.2)).sum
        = (l.map (fun x => x.tournaments)).sum
    ∧ ((resampleAgg yearBucket (fun x => x.tournaments) l).map (fun p => p.2)).sum
        = (l.map (fun x => x.tournaments)).sum :=
  ⟨resampleAgg_sum weekBucket _ l, resampleAgg_sum monthBucket _ l,
   resampleAgg_sum yearBucket _ l, resampleAgg_sum weekBucket _ l,
   resampleAgg_sum monthBucket _ l, resampleAgg_sum yearBucket _ l⟩

/-! ## Weekly bucketing conventions (C9)

The next two definitions transcribe the spec's wording, to be compared with
the source's bucketing: "Week buckets start on a fixed weekday (Monday) and
are labeled by ISO week number and year". -/

/-- Spec wording, part 1: weekly buckets start on Monday, i.e. two days share
a weekly bucket exactly when they lie in the same Monday-started week. -/
def weekBucketsStartOnMonday : Prop :=
  ∀ d1 d2 : ℕ, weekBucket d1 = weekBucket d2 ↔
    mondayOnOrBefore d1 = mondayOnOrBefore d2

/-- Spec wording, part 2: the week number in a weekly bucket's label is the
ISO week number of the bucket's labelling day. -/
def weeklyLabelsUseIsoWeek : Prop :=
  ∀ d : ℕ, (weekLabel (weekBucket d)).1 = isoWeek (weekBucket d)

/-- C9 counterexample.  Sunday 2024-01-07 (ordinal 19729) and Monday
2024-01-08 (19730) land in the same `W-MON` bucket although they lie in
different Monday-started weeks, so the source's weeks do not start on Monday;
and the bucket Monday 2024-01-01 (19723) is labelled with `%U` week 0 while
its ISO week number is 1, so the labels are not ISO week numbers. -/
theorem week_bucket_claim_false :
    (¬ weekBucketsStartOnMonday) ∧ (¬ weeklyLabelsUseIsoWeek) := by
  constructor
  · intro h1
    have h2 := (h1 19729 19730).mp (by decide)
    exact absurd h2 (by decide)
  · intro h1
    exact absurd (h1 19723) (by decide)

/-- C9 amended: `resample('W-MON')` buckets end on Monday — every day is
binned to the first Monday on or after it, so a bucket spans Tuesday through
Monday — and the weekly label `'Sem. %U %Y'` carries the Sunday-first (`%U`)
week number of the bucket's Monday together with its calendar year, which is
not the ISO week number (at Monday 2024-01-01, `%U` gives 0 while the ISO week
is 1); monthly buckets are labelled by their year and month (`%Y-%m`) and
yearly buckets by their year (`%Y`). -/
theorem week_bucket_amended :
    (∀ d : ℕ, weekdayMon (weekBucket d) = 0 ∧ d ≤ weekBucket d ∧
      weekBucket d ≤ d + 6 ∧ mondayOnOrBefore (weekBucket d) = weekBucket d)
    ∧ (∀ d : ℕ, weekLabel d = (uWeek d, yearOf d))
    ∧ uWeek 19723 = 0 ∧ isoWeek 19723 = 1
    ∧ (∀ d : ℕ, monthBucket d = (yearOf d, monthOf d) ∧ yearBucket d = yearOf d) := by
  refine ⟨?_, fun d => rfl, by decide, by decide, fun d => ⟨rfl, rfl⟩⟩
  intro d
  simp only [weekdayMon, weekBucket, mondayOnOrBefore]
  omega
